import Mathlib

/-!
# Verification of the twemredis shard-routing core

A shallow embedding of `twemredis.py` (a twemproxy-compatible client-side
sharding router) and proofs about it.  Machine arithmetic is `Nat` with
explicit reductions modulo `2^32`; fallible code paths return `Except`.
The external per-shard store client is modelled as an association-list
key/value store; everything else is translated from the source.
-/

set_option maxRecDepth 100000

namespace Twemredis

/-! ## MD5 (RFC 1321), as `hashlib.md5` computes it on byte strings -/

/-- The 64 MD5 sine-table constants `K[i]`. -/
def md5K : List Nat :=
  [0xd76aa478, 0xe8c7b756, 0x242070db, 0xc1bdceee,
   0xf57c0faf, 0x4787c62a, 0xa8304613, 0xfd469501,
   0x698098d8, 0x8b44f7af, 0xffff5bb1, 0x895cd7be,
   0x6b901122, 0xfd987193, 0xa679438e, 0x49b40821,
   0xf61e2562, 0xc040b340, 0x265e5a51, 0xe9b6c7aa,
   0xd62f105d, 0x02441453, 0xd8a1e681, 0xe7d3fbc8,
   0x21e1cde6, 0xc33707d6, 0xf4d50d87, 0x455a14ed,
   0xa9e3e905, 0xfcefa3f8, 0x676f02d9, 0x8d2a4c8a,
   0xfffa3942, 0x8771f681, 0x6d9d6122, 0xfde5380c,
   0xa4beea44, 0x4bdecfa9, 0xf6bb4b60, 0xbebfbc70,
   0x289b7ec6, 0xeaa127fa, 0xd4ef3085, 0x04881d05,
   0xd9d4d039, 0xe6db99e5, 0x1fa27cf8, 0xc4ac5665,
   0xf4292244, 0x432aff97, 0xab9423a7, 0xfc93a039,
   0x655b59c3, 0x8f0ccc92, 0xffeff47d, 0x85845dd1,
   0x6fa87e4f, 0xfe2ce6e0, 0xa3014314, 0x4e0811a1,
   0xf7537e82, 0xbd3af235, 0x2ad7d2bb, 0xeb86d391]

/-- The 64 MD5 per-round left-rotation amounts `S[i]`. -/
def md5S : List Nat :=
  [7, 12, 17, 22, 7, 12, 17, 22, 7, 12, 17, 22, 7, 12, 17, 22,
   5, 9, 14, 20, 5, 9, 14, 20, 5, 9, 14, 20, 5, 9, 14, 20,
   4, 11, 16, 23, 4, 11, 16, 23, 4, 11, 16, 23, 4, 11, 16, 23,
   6, 10, 15, 21, 6, 10, 15, 21, 6, 10, 15, 21, 6, 10, 15, 21]

/-- Left rotation by `n` on 32 bits, of a value below `2^32`. -/
def rotl32 (x n : Nat) : Nat :=
  ((x <<< n) ||| (x >>> (32 - n))) % 4294967296

/-- The MD5 nonlinear function for round `i` on words `b c d`
(bitwise complement on 32 bits is xor with `2^32 - 1`). -/
def md5F (i b c d : Nat) : Nat :=
  if i < 16 then (b &&& c) ||| ((4294967295 ^^^ b) &&& d)
  else if i < 32 then (d &&& b) ||| ((4294967295 ^^^ d) &&& c)
  else if i < 48 then b ^^^ c ^^^ d
  else c ^^^ (b ||| (4294967295 ^^^ d))

/-- The MD5 message-word index used in round `i`. -/
def md5G (i : Nat) : Nat :=
  if i < 16 then i
  else if i < 32 then (5 * i + 1) % 16
  else if i < 48 then (3 * i + 5) % 16
  else (7 * i) % 16

/-- One MD5 round on state `(a, b, c, d)` with message words `m`, round `i`. -/
def md5step (m : List Nat) (st : Nat × Nat × Nat × Nat) (i : Nat) :
    Nat × Nat × Nat × Nat :=
  match st with
  | (a, b, c, d) =>
    let t := (md5F i b c d + a + md5K.getD i 0 + m.getD (md5G i) 0) % 4294967296
    (d, (b + rotl32 t (md5S.getD i 0)) % 4294967296, b, c)

/-- Split a value into `n` little-endian bytes. -/
def toLEBytes : Nat → Nat → List Nat
  | 0, _ => []
  | n + 1, x => (x % 256) :: toLEBytes n (x / 256)

/-- Decode the next `n` little-endian 32-bit words of a byte list. -/
def toWords : Nat → List Nat → List Nat
  | 0, _ => []
  | n + 1, l =>
    (l.getD 0 0 + l.getD 1 0 * 256 + l.getD 2 0 * 65536 +
      l.getD 3 0 * 16777216) :: toWords n (l.drop 4)

/-- Process one 64-byte block, updating the four-word MD5 state. -/
def md5Block (st : Nat × Nat × Nat × Nat) (blk : List Nat) :
    Nat × Nat × Nat × Nat :=
  let m := toWords 16 blk
  match st, (List.range 64).foldl (md5step m) st with
  | (a0, b0, c0, d0), (a, b, c, d) =>
    ((a0 + a) % 4294967296, (b0 + b) % 4294967296,
     (c0 + c) % 4294967296, (d0 + d) % 4294967296)

/-- Split a byte list into 64-byte blocks (fuel makes the recursion
structural, so that the kernel can evaluate it). -/
def toBlocksF : Nat → List Nat → List (List Nat)
  | 0, _ => []
  | fuel + 1, l =>
    match l with
    | [] => []
    | l => l.take 64 :: toBlocksF fuel (l.drop 64)

/-- MD5 padding: a `0x80` byte, zeros up to 56 mod 64, then the original
length in bits as a little-endian 64-bit value. -/
def md5pad (msg : List Nat) : List Nat :=
  let zeros := (120 - (msg.length + 1) % 64) % 64
  msg ++ 128 :: List.replicate zeros 0 ++
    toLEBytes 8 ((8 * msg.length) % 18446744073709551616)

/-- The 16-byte MD5 digest of a byte list. -/
def md5 (msg : List Nat) : List Nat :=
  let padded := md5pad msg
  let st := (toBlocksF padded.length padded).foldl md5Block
    (0x67452301, 0xefcdab89, 0x98badcfe, 0x10325476)
  toLEBytes 4 st.1 ++ toLEBytes 4 st.2.1 ++ toLEBytes 4 st.2.2.1 ++
    toLEBytes 4 st.2.2.2

/-- Byte values of a string.  The source hashes Python byte strings; all
identifiers involved are ASCII, where code points and bytes coincide. -/
def strBytes (s : String) : List Nat := s.data.map Char.toNat

/-! ## Hex digests and the routing function (`get_shard_num_by_key_id`) -/

/-- Lowercase hex digit of a value below 16, as `hexdigest` prints it. -/
def toHexNibble (n : Nat) : Char :=
  if n < 10 then Char.ofNat (48 + n) else Char.ofNat (87 + n)

/-- The two lowercase hex digits of one byte. -/
def byteToHex (b : Nat) : List Char :=
  [toHexNibble (b / 16), toHexNibble (b % 16)]

/-- Lowercase hex digest string of a byte list, as `hashlib` prints it. -/
def hexdigest (bs : List Nat) : String := ⟨bs.flatMap byteToHex⟩

/-- Value of one lowercase hex digit, as `int(c, 16)` reads it. -/
def hexVal (c : Char) : Nat :=
  if c.toNat ≤ 57 then c.toNat - 48 else c.toNat - 87

/-- Reading `int(m[i:i+2], 16)`: the byte denoted by the two hex digits
of `m` at positions `i` and `i+1`. -/
def parse2 (m : String) (i : Nat) : Nat :=
  16 * hexVal (m.data.getD i '0') + hexVal (m.data.getD (i + 1) '0')

/-- Source `get_shard_num_by_key_id`: take the md5 hexdigest of the
key id, rebuild the first four digest bytes via
`int(m[0:2],16) | int(m[2:4],16) << 8 | int(m[4:6],16) << 16 |
int(m[6:8],16) << 24`, and reduce modulo the shard count. -/
def get_shard_num_by_key_id (key_id : String) (num_shards : Nat) : Nat :=
  let m := hexdigest (md5 (strBytes key_id))
  let val := parse2 m 0 ||| (parse2 m 2 <<< 8) ||| (parse2 m 4 <<< 16) |||
    (parse2 m 6 <<< 24)
  val % num_shards

/-- The spec's words for the routing function, for comparison with the
translated source: compute the MD5 digest of the identifier's bytes,
interpret the first four digest bytes as an unsigned 32-bit little-endian
integer, and return that integer modulo the shard count. -/
def routeSpec (key_id : String) (num_shards : Nat) : Nat :=
  let d := md5 (strBytes key_id)
  (d.getD 0 0 + d.getD 1 0 * 256 + d.getD 2 0 * 65536 +
    d.getD 3 0 * 16777216) % num_shards

/-! ## Key codec (`get_key`, `_get_key_id_from_key`) -/

/-- Scan for the stop delimiter: `some v` splits off the characters before
the first occurrence of `b`; `none` when `b` does not occur. -/
def takeUntil (b : Char) : List Char → Option (List Char)
  | [] => none
  | c :: rest => if c = b then some [] else (takeUntil b rest).map (c :: ·)

/-- Python `re.search` of the pattern `a[^b]*b` with its captured group,
translated: scan left
to right for a position holding `a` whose tail contains a `b`; the capture
runs to the first `b` after that position. -/
def reSearch (a b : Char) : List Char → Option (List Char)
  | [] => none
  | c :: rest =>
    if c = a then
      match takeUntil b rest with
      | some v => some v
      | none => reSearch a b rest
    else reSearch a b rest

/-- Source `_get_key_id_from_key`: the group captured by `re.search` of
`start([^stop]*)stop` when a match exists, otherwise the whole key. -/
def _get_key_id_from_key (a b : Char) (key : String) : String :=
  match reSearch a b key.data with
  | some v => ⟨v⟩
  | none => key

/-- Source `get_shard_num_by_key`: extract the key id, then route it. -/
def get_shard_num_by_key (a b : Char) (key : String) (num_shards : Nat) :
    Nat :=
  get_shard_num_by_key_id (_get_key_id_from_key a b key) num_shards

/-- Python `str.format` restricted to single-digit positional fields
`{0}`..`{9}`, the only field shape the source's templates use.  All other
characters are copied verbatim; in particular `%`-style placeholders are
not replacement fields and stay as they are. -/
def pyFormatCore : List Char → List String → List Char
  | [], _ => []
  | '\x7b' :: d :: e :: rest, args =>
    if e = '\x7d' then
      (args.getD (d.toNat - 48) (⟨[]⟩)).data ++ pyFormatCore rest args
    else '\x7b' :: pyFormatCore (d :: e :: rest) args
  | c :: rest, args => c :: pyFormatCore rest args

/-- Python `str.format` on a template string. -/
def pyFormat (template : String) (args : List String) : String :=
  ⟨pyFormatCore template.data args⟩

/-- Source `get_key`, i.e.
`"{0}:{1}{2}{3}".format(key_type, hash_start, key_id, hash_stop)`. -/
def get_key (a b : Char) (key_type key_id : String) : String :=
  pyFormat ("{0}:{1}{2}{3}")
    [key_type, String.singleton a, key_id, String.singleton b]

/-! ## Errors, the router state, and the shard registry -/

/-- Errors raised by the translated code paths. -/
inductive PyError where
  | valueError (msg : String)
  | nameError (name : String)
  | keyError (k : Nat)
  | indexError
  | exception (msg : String)
deriving DecidableEq

/-- The router's fixed configuration and shard registry: the shard count,
the two hash-tag delimiter characters, and the map from shard index to the
(opaque, here numbered) shard connection handle, populated for all indices
in `[0, num_shards)` at startup. -/
structure TwemRedis where
  num_shards : Nat
  hash_start : Char
  hash_stop : Char
  shards : Nat → Nat

/-- The Redis operations barred from generic sharded dispatch. -/
def disallowed_sharded_operations : List String :=
  [("hscan"), ("keys"), ("scan"), ("sscan"), ("zscan")]

/-- Source `get_shard_by_num`: bounds-check the index, then return the stored
handle.  A pure function: no router state is touched. -/
def get_shard_by_num (r : TwemRedis) (shard_num : Int) : Except PyError Nat :=
  if shard_num < 0 ∨ shard_num ≥ (r.num_shards : Int) then
    .error (.valueError (("requested invalid shard ") ++ toString shard_num))
  else .ok (r.shards shard_num.toNat)

/-- Source `get_shard_by_key_id`: route the id, then look the shard up by
number. -/
def get_shard_by_key_id (r : TwemRedis) (key_id : String) :
    Except PyError Nat :=
  get_shard_by_num r (get_shard_num_by_key_id key_id r.num_shards : Nat)

/-- Source `get_shard_by_key`: extract the key id, then
`get_shard_by_key_id`. -/
def get_shard_by_key (r : TwemRedis) (key : String) : Except PyError Nat :=
  get_shard_by_key_id r (_get_key_id_from_key r.hash_start r.hash_stop key)

/-! ## The per-shard store client and generic dispatch (`__getattr__`) -/

/-- Values returned by modelled store commands. -/
inductive RVal where
  | bool (b : Bool)
  | str (s : Option String)
  | listOpt (l : List (Option String))
deriving DecidableEq

/-- One shard's key/value store, most recent binding first. -/
def Store := List (String × String)

/-- The external per-shard store client (an out-of-scope collaborator in
the spec): conventional `set`/`get`/`mget` semantics over an
association-list store.  Commands the claims do not touch are left as
errors; dispatch forwards to this only after its own checks. -/
def redisExec (st : Store) (func_name : String) (args : List String) :
    Except PyError (RVal × Store) :=
  match func_name, args with
  | "set", [k, v] => .ok (.bool true, ((k, v) :: st : List (String × String)))
  | "get", [k] => .ok (.str ((st : List (String × String)).lookup k), st)
  | _, _ => .error (.exception ("unmodelled redis command"))

/-- Source `__getattr__`, i.e. generic sharded dispatch of a store
command: reject denylisted operations (the message is built with
`"Cannot call '%s' on sharded Redis".format(func_name)`, and since the
template has no replacement fields `format` returns it unchanged), take
the key from the first argument, resolve the shard handle by that key, and
execute the command with the full original argument list on that shard's
store.  `σ` maps a shard handle to its store. -/
def __getattr__ (r : TwemRedis) (σ : Nat → Store) (func_name : String)
    (args : List String) : Except PyError (RVal × (Nat → Store)) :=
  if func_name ∈ disallowed_sharded_operations then
    .error (.exception
      (pyFormat ("Cannot call \x27%s\x27 on sharded Redis") [func_name]))
  else
    match args with
    | [] => .error .indexError
    | key :: _ =>
      match get_shard_by_key r key with
      | .error e => .error e
      | .ok shard =>
        match redisExec (σ shard) func_name args with
        | .error e => .error e
        | .ok (v, st2) => .ok (v, fun n => if n = shard then st2 else σ n)

/-! ## Canonical keys (`compute_canonical_keys`) -/

/-- The canonical-key probe loop with `fuel` iterations remaining, probing
`key_id = k, k+1, ...`; the accumulator is the table in insertion order,
mirroring the Python dict. -/
def ckLoop (a b : Char) (num_shards : Nat) :
    Nat → Nat → List (Nat × String) → List (Nat × String)
  | 0, _, acc => acc
  | fuel + 1, k, acc =>
    let shard_num := get_shard_num_by_key a b (toString k) num_shards
    if (acc.lookup shard_num).isSome then
      ckLoop a b num_shards fuel (k + 1) acc
    else
      let acc2 := acc ++ [(shard_num, toString k)]
      if acc2.length = num_shards then acc2
      else ckLoop a b num_shards fuel (k + 1) acc2

/-- Source `compute_canonical_keys`: probe `str(k)` for `k` in
`range(1, num_shards**2 * search_amplifier)` and stop once every shard has
an entry.  On incomplete coverage the source raises; while building the
message it reads the undefined name `len_canonical_keys`, so CPython
signals a `NameError` at that point (and the intended counts would not
have been interpolated anyway, the template uses `%d` under
`str.format`). -/
def compute_canonical_keys (a b : Char) (num_shards : Nat)
    (search_amplifier : Nat := 100) : Except PyError (List (Nat × String)) :=
  let t := ckLoop a b num_shards (num_shards ^ 2 * search_amplifier - 1) 1 []
  if t.length = num_shards then .ok t
  else .error (.nameError ("len_canonical_keys"))

/-! ## Multi-get fan-out (`mget`) -/

/-- Append a key to its shard's bucket, creating the bucket on first use
(`key_map` keeps Python-dict insertion order). -/
def addKey (m : List (Nat × List String)) (n : Nat) (k : String) :
    List (Nat × List String) :=
  match m with
  | [] => [(n, [k])]
  | (n0, ks) :: rest =>
    if n0 = n then (n0, ks ++ [k]) :: rest else (n0, ks) :: addKey rest n k

/-- The result loop of `mget`: for each shard number in order, look the
shard up, then read its bucket out of `key_map` — a missing bucket is a
Python `KeyError` — and multi-get that bucket against the shard's store. -/
def mgetLoop (r : TwemRedis) (σ : Nat → Store)
    (key_map : List (Nat × List String)) :
    List Nat → Except PyError (List (Nat × List (Option String)))
  | [] => .ok []
  | n :: ns =>
    match get_shard_by_num r (n : Int) with
    | .error e => .error e
    | .ok shard =>
      match key_map.lookup n with
      | none => .error (.keyError n)
      | some ks =>
        match mgetLoop r σ key_map ns with
        | .error e => .error e
        | .ok rest =>
          .ok ((n, ks.map fun k => (σ shard : List (String × String)).lookup k)
            :: rest)

/-- Source `mget`: partition the keys by routed shard number, then
for every shard number in `range(0, num_shards)` issue one multi-get with
that shard's bucket. -/
def mget (r : TwemRedis) (σ : Nat → Store) (args : List String) :
    Except PyError (List (Nat × List (Option String))) :=
  let key_map := args.foldl
    (fun m key =>
      addKey m (get_shard_num_by_key r.hash_start r.hash_stop key r.num_shards)
        key) []
  mgetLoop r σ key_map (List.range r.num_shards)

/-- A concrete router configuration mirroring the repository's test setup:
ten shards, hash tag `{`/`}`, shard handles numbered by index. -/
def testRouter : TwemRedis :=
  { num_shards := 10, hash_start := '\x7b', hash_stop := '\x7d',
    shards := fun n => n }

/-- Empty stores for every shard handle. -/
def emptyStores : Nat → Store := fun _ => ([] : List (String × String))

/-! ## Lemmas: digest shape and the little-endian reconstruction (C1) -/

lemma toLEBytes_length (n x : Nat) : (toLEBytes n x).length = n := by
  induction n generalizing x with
  | zero => rfl
  | succ n ih => simp [toLEBytes, ih]

lemma toLEBytes_lt (n x : Nat) : ∀ y ∈ toLEBytes n x, y < 256 := by
  induction n generalizing x with
  | zero => simp [toLEBytes]
  | succ n ih =>
    intro y hy
    rcases hy with _ | ⟨_, hy⟩
    · exact Nat.mod_lt _ (by norm_num)
    · exact ih _ y hy

lemma md5_digest_bytes (msg : List Nat) : ∀ y ∈ md5 msg, y < 256 := by
  intro y hy
  simp only [md5, List.mem_append] at hy
  rcases hy with ((hy | hy) | hy) | hy <;> exact toLEBytes_lt _ _ y hy

lemma md5_length (msg : List Nat) : (md5 msg).length = 16 := by
  simp [md5, toLEBytes_length]

lemma hexVal_toHexNibble (v : Nat) (h : v < 16) :
    hexVal (toHexNibble v) = v := by
  interval_cases v <;> rfl

lemma parse2_hexdigest (bs : List Nat) (h : ∀ y ∈ bs, y < 256) :
    ∀ i, i < bs.length → parse2 (hexdigest bs) (2 * i) = bs.getD i 0 := by
  induction bs with
  | nil => simp
  | cons x rest ih =>
    intro i hi
    have hx : x < 256 := h x (by simp)
    cases i with
    | zero =>
      have hd : x / 16 < 16 := by omega
      have hm : x % 16 < 16 := by omega
      simp only [parse2, hexdigest, byteToHex, List.flatMap_cons, List.cons_append,
        List.nil_append, Nat.mul_zero, Nat.zero_add, List.getD_cons_zero,
        List.getD_cons_succ]
      rw [hexVal_toHexNibble _ hd, hexVal_toHexNibble _ hm]
      omega
    | succ i =>
      have hrest : ∀ y ∈ rest, y < 256 := fun y hy => h y (by simp [hy])
      have e2 : 2 * (i + 1) = 2 * i + 1 + 1 := by omega
      have e3 : 2 * (i + 1) + 1 = (2 * i + 1) + 1 + 1 := by omega
      simp only [parse2, hexdigest, byteToHex, List.flatMap_cons, List.cons_append,
        List.nil_append, e2, e3, List.getD_cons_succ, List.getD_cons_zero]
      have := ih hrest i (by simpa using hi)
      simpa [parse2, hexdigest, e2] using this

lemma lor_shift_add (x y k : Nat) (hx : x < 2 ^ k) :
    x ||| (y <<< k) = x + y * 2 ^ k := by
  rw [Nat.shiftLeft_eq, Nat.lor_comm, Nat.mul_comm y]
  rw [← Nat.mul_add_lt_is_or hx]
  ring

lemma or4_bytes (b0 b1 b2 b3 : Nat) (h0 : b0 < 256) (h1 : b1 < 256)
    (h2 : b2 < 256) :
    b0 ||| (b1 <<< 8) ||| (b2 <<< 16) ||| (b3 <<< 24) =
      b0 + b1 * 256 + b2 * 65536 + b3 * 16777216 := by
  have p8 : (2 : Nat) ^ 8 = 256 := by norm_num
  have p16 : (2 : Nat) ^ 16 = 65536 := by norm_num
  have p24 : (2 : Nat) ^ 24 = 16777216 := by norm_num
  have e1 : b0 ||| (b1 <<< 8) = b0 + b1 * 256 := by
    rw [lor_shift_add b0 b1 8 (by omega), p8]
  have e2 : b0 + b1 * 256 ||| (b2 <<< 16) = b0 + b1 * 256 + b2 * 65536 := by
    rw [lor_shift_add _ b2 16 (by omega), p16]
  have e3 : b0 + b1 * 256 + b2 * 65536 ||| (b3 <<< 24) =
      b0 + b1 * 256 + b2 * 65536 + b3 * 16777216 := by
    rw [lor_shift_add _ b3 24 (by omega), p24]
  rw [e1, e2, e3]

/-! ## C1: the routing function -/

/-- C1: for every identifier and every shard count `N > 0`, the source's
routing function (`get_shard_num_by_key_id`, which reads the md5 hexdigest
back byte by byte) equals the spec's description (first four md5 digest
bytes as an unsigned 32-bit little-endian integer, modulo `N`), the result
is a shard index below `N`, and concretely for `N = 10` identifier
`"123456"` routes to 7 and `"banana"` to 6. -/
theorem c1_routing_md5_le32 (key_id : String) (N : Nat) (hN : 0 < N) :
    get_shard_num_by_key_id key_id N = routeSpec key_id N ∧
    get_shard_num_by_key_id key_id N < N ∧
    get_shard_num_by_key_id ("123456") 10 = 7 ∧
    get_shard_num_by_key_id ("banana") 10 = 6 := by
  have hb := md5_digest_bytes (strBytes key_id)
  have hl := md5_length (strBytes key_id)
  have hmem : ∀ i, i < (md5 (strBytes key_id)).length →
      (md5 (strBytes key_id)).getD i 0 ∈ md5 (strBytes key_id) := by
    intro i h
    rw [List.getD_eq_getElem _ _ h]
    exact List.getElem_mem h
  have p0 := parse2_hexdigest _ hb 0 (by omega)
  have p1 := parse2_hexdigest _ hb 1 (by omega)
  have p2 := parse2_hexdigest _ hb 2 (by omega)
  have p3 := parse2_hexdigest _ hb 3 (by omega)
  simp only [show (2 * 0 : Nat) = 0 from rfl, show (2 * 1 : Nat) = 2 from rfl,
    show (2 * 2 : Nat) = 4 from rfl, show (2 * 3 : Nat) = 6 from rfl]
    at p0 p1 p2 p3
  have m0 := hb _ (hmem 0 (by omega))
  have m1 := hb _ (hmem 1 (by omega))
  have m2 := hb _ (hmem 2 (by omega))
  refine ⟨?_, ?_, by decide, by decide⟩
  · simp only [get_shard_num_by_key_id, routeSpec]
    rw [p0, p1, p2, p3, or4_bytes _ _ _ _ m0 m1 m2]
  · simp only [get_shard_num_by_key_id]
    exact Nat.mod_lt _ hN

/-- Witness for C1 at identifier `"123456"`, shard count 10. -/
theorem c1_routing_md5_le32_witness :
    0 < 10 ∧
    (get_shard_num_by_key_id ("123456") 10 = routeSpec ("123456") 10 ∧
     get_shard_num_by_key_id ("123456") 10 < 10 ∧
     get_shard_num_by_key_id ("123456") 10 = 7 ∧
     get_shard_num_by_key_id ("banana") 10 = 6) :=
  ⟨by decide, c1_routing_md5_le32 ("123456") 10 (by decide)⟩

/-! ## Lemmas: the delimiter-span scanner (C8, C10) -/

lemma takeUntil_of (b : Char) (v w : List Char) (hv : b ∉ v) :
    takeUntil b (v ++ b :: w) = some v := by
  induction v with
  | nil => simp [takeUntil]
  | cons c v ih =>
    simp only [List.mem_cons, not_or] at hv
    have hc : c ≠ b := fun h => hv.1 h.symm
    simp [takeUntil, hc, ih hv.2]

lemma takeUntil_eq_none (b : Char) : ∀ l : List Char, b ∉ l →
    takeUntil b l = none := by
  intro l hl
  induction l with
  | nil => rfl
  | cons c rest ih =>
    have hc : c ≠ b := by simp at hl; exact fun h => hl.1 h.symm
    have h2 : b ∉ rest := by simp at hl; exact hl.2
    simp [takeUntil, fun h => hc h, ih h2]

lemma takeUntil_some (b : Char) : ∀ l v : List Char, takeUntil b l = some v →
    b ∉ v ∧ ∃ w, l = v ++ b :: w := by
  intro l
  induction l with
  | nil => intro v h; simp [takeUntil] at h
  | cons c rest ih =>
    intro v h
    by_cases hc : c = b
    · subst hc
      simp [takeUntil] at h
      subst h
      exact ⟨by simp, rest, rfl⟩
    · simp [takeUntil, hc] at h
      obtain ⟨v2, hv2, rfl⟩ := h
      obtain ⟨hb, w, rfl⟩ := ih v2 hv2
      refine ⟨?_, w, rfl⟩
      simp only [List.mem_cons, not_or]
      exact ⟨fun h => hc h.symm, hb⟩

lemma reSearch_of (a b : Char) (u v w : List Char) (hu : a ∉ u)
    (hv : b ∉ v) : reSearch a b (u ++ a :: v ++ b :: w) = some v := by
  induction u with
  | nil => simp [reSearch, takeUntil_of b v w hv]
  | cons c u ih =>
    simp only [List.mem_cons, not_or] at hu
    have hc : c ≠ a := fun h => hu.1 h.symm
    simpa [reSearch, hc] using ih hu.2

lemma reSearch_eq_none (a b : Char) : ∀ l : List Char,
    (¬ ∃ u v w, l = u ++ a :: v ++ b :: w) → reSearch a b l = none := by
  intro l
  induction l with
  | nil => intro _; rfl
  | cons c rest ih =>
    intro h
    have hrest : ¬ ∃ u v w, rest = u ++ a :: v ++ b :: w := by
      rintro ⟨u, v, w, rfl⟩
      exact h ⟨c :: u, v, w, rfl⟩
    by_cases hc : c = a
    · subst hc
      rcases ht : takeUntil b rest with _ | v
      · simp [reSearch, ht, ih hrest]
      · obtain ⟨hb, w, rfl⟩ := takeUntil_some b rest v ht
        exact absurd ⟨[], v, w, rfl⟩ h
    · simp [reSearch, hc, ih hrest]

/-- The exact character list of a built key. -/
lemma get_key_data (a b : Char) (t i : String) :
    (get_key a b t i).data = t.data ++ ':' :: a :: (i.data ++ [b]) := rfl

/-! ## C8: identifier extraction -/

/-- C8: when the key decomposes around the first delimiter span — a start
delimiter not preceded by any other start delimiter that opens a span, a
stop-free captured part, a stop delimiter — extraction returns exactly the
captured part; when no such span exists in the key, extraction returns the
key unchanged. -/
theorem c8_extract_identifier (a b : Char) (key : String) :
    (∀ u v w : List Char, key.data = u ++ a :: v ++ b :: w → a ∉ u →
      b ∉ v → _get_key_id_from_key a b key = ⟨v⟩) ∧
    ((¬ ∃ u v w : List Char, key.data = u ++ a :: v ++ b :: w) →
      _get_key_id_from_key a b key = key) := by
  constructor
  · intro u v w hdec hu hv
    unfold _get_key_id_from_key
    rw [hdec, reSearch_of a b u v w hu hv]
  · intro h
    unfold _get_key_id_from_key
    rw [reSearch_eq_none a b key.data h]

/-- Witness for C8 on the key `"friend_request:{123456}"`. -/
theorem c8_extract_identifier_witness :
    (("friend_request:{123456}").data =
      ("friend_request:").data ++ '\x7b' :: ("123456").data ++ '\x7d' :: [] ∧
     '\x7b' ∉ ("friend_request:").data ∧ '\x7d' ∉ ("123456").data) ∧
    _get_key_id_from_key '\x7b' '\x7d' ("friend_request:{123456}") =
      ("123456") :=
  ⟨⟨by decide, by decide, by decide⟩,
   (c8_extract_identifier '\x7b' '\x7d' ("friend_request:{123456}")).1
     (("friend_request:").data) (("123456").data) []
     (by decide) (by decide) (by decide)⟩

/-! ## C9: key construction -/

/-- C9: `get_key` returns exactly
`keyType ++ ":" ++ start ++ keyId ++ stop` for all inputs, with no
validation or transformation of either argument; concretely
`get_key("friend_request", "123456") = "friend_request:{123456}"`, and the
same shape holds for a non-numeric id. -/
theorem c9_get_key (a b : Char) (key_type key_id : String) :
    get_key a b key_type key_id =
      key_type ++ (":") ++ String.singleton a ++ key_id ++
        String.singleton b ∧
    get_key '\x7b' '\x7d' ("friend_request") ("123456") =
      ("friend_request:{123456}") ∧
    get_key '\x7b' '\x7d' ("friend_request") ("banana") =
      ("friend_request:{banana}") := by
  refine ⟨?_, by decide, by decide⟩
  apply String.ext
  simp [get_key_data, String.data_append, String.singleton, String.data_push]

/-! ## C10: extraction inverts construction -/

/-- C10 as stated is false: with start delimiter `':'` (permitted by the
data model, which only asks for two delimiter characters), the `':'`
separator that `get_key` inserts opens the span one position early, so the
captured identifier gains a stray character.  Concretely for
`keyType = "t"`, `keyId = "1"`: the claim's side conditions hold, yet
extraction of the built key does not return the identifier. -/
theorem c10_roundtrip_counterexample :
    (':' ∉ ("t").data ∧ '\x7d' ∉ ("t").data ∧ '\x7d' ∉ ("1").data) ∧
    _get_key_id_from_key ':' '\x7d' (get_key ':' '\x7d' ("t") ("1")) ≠
      ("1") := by
  decide

/-- C10 amended: extraction recovers the identifier from a built key
whenever the key type contains neither delimiter, the identifier contains
no stop delimiter, and additionally the start delimiter is not the `':'`
separator character. -/
theorem c10_roundtrip_amended (a b : Char) (key_type key_id : String)
    (ha : a ∉ key_type.data) (_hb : b ∉ key_type.data)
    (hbi : b ∉ key_id.data) (hc : a ≠ ':') :
    _get_key_id_from_key a b (get_key a b key_type key_id) = key_id := by
  unfold _get_key_id_from_key
  rw [get_key_data]
  have hdec : key_type.data ++ ':' :: a :: (key_id.data ++ [b]) =
      (key_type.data ++ [':']) ++ a :: key_id.data ++ b :: [] := by simp
  have hu : a ∉ key_type.data ++ [':'] := by simp [ha, hc]
  rw [hdec, reSearch_of a b _ _ _ hu hbi]

/-- Witness for the amended C10 on `("friend_request", "123456")` with the
default `{`/`}` hash tag. -/
theorem c10_roundtrip_amended_witness :
    ('\x7b' ∉ ("friend_request").data ∧ '\x7d' ∉ ("friend_request").data ∧
     '\x7d' ∉ ("123456").data ∧ '\x7b' ≠ ':') ∧
    _get_key_id_from_key '\x7b' '\x7d'
      (get_key '\x7b' '\x7d' ("friend_request") ("123456")) = ("123456") :=
  ⟨⟨by decide, by decide, by decide, by decide⟩,
   c10_roundtrip_amended '\x7b' '\x7d' ("friend_request") ("123456")
     (by decide) (by decide) (by decide) (by decide)⟩

/-! ## C7: shard lookup by index -/

/-- C7: `get_shard_by_num` fails with the out-of-range `ValueError` exactly
when the index is negative or at least the shard count, and otherwise
returns the stored handle for that index (it is a pure read: no router
state exists to change); in particular index `-1` and index `num_shards`
both fail. -/
theorem c7_get_shard_by_num (r : TwemRedis) (i : Int) :
    ((i < 0 ∨ (r.num_shards : Int) ≤ i) →
      get_shard_by_num r i =
        .error (.valueError (("requested invalid shard ") ++ toString i))) ∧
    (0 ≤ i → i < (r.num_shards : Int) →
      get_shard_by_num r i = .ok (r.shards i.toNat)) ∧
    get_shard_by_num r (-1) =
      .error (.valueError
        (("requested invalid shard ") ++ toString (-1 : Int))) ∧
    get_shard_by_num r ((r.num_shards : Int)) =
      .error (.valueError
        (("requested invalid shard ") ++ toString ((r.num_shards : Int)))) := by
  refine ⟨?_, ?_, ?_, ?_⟩
  · intro h
    simp only [get_shard_by_num]
    rw [if_pos h]
  · intro h1 h2
    simp only [get_shard_by_num]
    rw [if_neg (by omega)]
  · simp only [get_shard_by_num]
    rw [if_pos (Or.inl (by decide))]
  · simp only [get_shard_by_num]
    rw [if_pos (Or.inr (le_refl _))]

/-- Witness for C7 on the ten-shard test router at indices `-1`, `10`, `3`. -/
theorem c7_get_shard_by_num_witness :
    get_shard_by_num testRouter (-1) =
      .error (.valueError ("requested invalid shard -1")) ∧
    get_shard_by_num testRouter 10 =
      .error (.valueError ("requested invalid shard 10")) ∧
    get_shard_by_num testRouter 3 = .ok 3 := by
  obtain ⟨_, h2, h3, h4⟩ := c7_get_shard_by_num testRouter 3
  exact ⟨h3, h4, h2 (by decide) (by decide)⟩

/-! ## C6: the dispatch denylist -/

/-- Python `str.format` leaves the denylist message template unchanged: it
has no
replacement fields (only a `%`-style placeholder, which `format` ignores). -/
lemma pyFormat_denylist_msg (cmd : String) :
    pyFormat ("Cannot call \x27%s\x27 on sharded Redis") [cmd] =
      ("Cannot call \x27%s\x27 on sharded Redis") := rfl

/-- C6 on the code as written: dispatching any denylisted command fails
before touching any shard, for every argument list — but the raised
message is one constant string for every command (the `%s` placeholder is
never interpolated, since the source applies `str.format` to a `%`-style
template), so the message does not name the invoked command. -/
theorem c6_denylist_dispatch (r : TwemRedis) (σ : Nat → Store)
    (func_name : String) (args : List String)
    (h : func_name ∈ disallowed_sharded_operations) :
    __getattr__ r σ func_name args =
      .error (.exception ("Cannot call \x27%s\x27 on sharded Redis")) := by
  unfold __getattr__
  rw [if_pos h, pyFormat_denylist_msg]

/-- Witness for C6: dispatching `keys` on the test router. -/
theorem c6_denylist_dispatch_witness :
    ("keys") ∈ disallowed_sharded_operations ∧
    __getattr__ testRouter emptyStores ("keys") [("foo")] =
      .error (.exception ("Cannot call \x27%s\x27 on sharded Redis")) :=
  ⟨by decide,
   c6_denylist_dispatch testRouter emptyStores ("keys") [("foo")]
     (by decide)⟩

/-! ## C4: generic dispatch and the set/get round trip -/

/-- C4: for every key and value, dispatching `set key v` succeeds against
the shard handle resolved from the key, dispatching `get key` afterwards
returns `v` and leaves the stores unchanged, and `get_shard_by_key`
returns exactly the handle the `set` was executed against; moreover for
every non-denylisted command, dispatch resolves the shard from the first
argument and forwards the full original argument list to it unmodified. -/
theorem c4_dispatch_roundtrip (r : TwemRedis) (σ : Nat → Store)
    (key v : String) (hN : 0 < r.num_shards) :
    ∃ (h : Nat) (σ2 : Nat → Store),
      get_shard_by_key r key = .ok h ∧
      __getattr__ r σ ("set") [key, v] = .ok (.bool true, σ2) ∧
      __getattr__ r σ2 ("get") [key] = .ok (.str (some v), σ2) ∧
      σ2 h = (key, v) :: σ h ∧ (∀ n, n ≠ h → σ2 n = σ n) ∧
      (∀ (cmd key2 : String) (rest : List String),
        cmd ∉ disallowed_sharded_operations →
        __getattr__ r σ cmd (key2 :: rest) =
          match get_shard_by_key r key2 with
          | .error e => .error e
          | .ok h2 =>
            match redisExec (σ h2) cmd (key2 :: rest) with
            | .error e => .error e
            | .ok (rv, st2) =>
              .ok (rv, fun n => if n = h2 then st2 else σ n)) := by
  have hlt : get_shard_num_by_key_id
      (_get_key_id_from_key r.hash_start r.hash_stop key) r.num_shards <
      r.num_shards := by
    simp only [get_shard_num_by_key_id]
    exact Nat.mod_lt _ hN
  set n := get_shard_num_by_key_id
    (_get_key_id_from_key r.hash_start r.hash_stop key) r.num_shards with hn
  have hshard : get_shard_by_key r key = .ok (r.shards n) := by
    unfold get_shard_by_key get_shard_by_key_id get_shard_by_num
    rw [if_neg (by omega)]
    simp
  set σ2 : Nat → Store :=
    fun m => if m = r.shards n
      then ((key, v) :: σ (r.shards n) : List (String × String))
      else σ m with hσ2
  have hs2 : σ2 (r.shards n) =
      ((key, v) :: σ (r.shards n) : List (String × String)) := by
    rw [hσ2]
    simp
  have hsk : ∀ m, m ≠ r.shards n → σ2 m = σ m := by
    intro m hm
    rw [hσ2]
    simp [hm]
  refine ⟨r.shards n, σ2, hshard, ?_, ?_, hs2, hsk, ?_⟩
  · unfold __getattr__
    rw [if_neg (by decide)]
    dsimp only
    rw [hshard]
    dsimp only [redisExec]
    rfl
  · unfold __getattr__
    rw [if_neg (by decide)]
    dsimp only
    rw [hshard]
    dsimp only
    rw [hs2]
    have hlook :
        (List.lookup key ((key, v) :: σ (r.shards n) : List (String × String)))
          = some v := by
      simp [List.lookup]
    show Except.ok
        (RVal.str
          (List.lookup key ((key, v) :: σ (r.shards n) : List (String × String))),
         fun m => if m = r.shards n
           then ((key, v) :: σ (r.shards n) : List (String × String))
           else σ2 m) =
      Except.ok (RVal.str (some v), σ2)
    rw [hlook]
    have hfun : (fun m => if m = r.shards n
        then ((key, v) :: σ (r.shards n) : List (String × String))
        else σ2 m) = σ2 := by
      funext m
      by_cases hm : m = r.shards n
      · rw [if_pos hm, hm, hs2]
      · rw [if_neg hm]
    rw [hfun]
  · intro cmd key2 rest hc
    unfold __getattr__
    rw [if_neg hc]

/-- Witness for C4: `set`/`get` of `("12345", "bananas")` on the
ten-shard test router with empty stores. -/
theorem c4_dispatch_roundtrip_witness :
    0 < testRouter.num_shards ∧
    ∃ (h : Nat) (σ2 : Nat → Store),
      get_shard_by_key testRouter ("12345") = .ok h ∧
      __getattr__ testRouter emptyStores ("set") [("12345"), ("bananas")] =
        .ok (.bool true, σ2) ∧
      __getattr__ testRouter σ2 ("get") [("12345")] =
        .ok (.str (some ("bananas")), σ2) :=
  ⟨by decide, by
    obtain ⟨h, σ2, h1, h2, h3, -, -, -⟩ :=
      c4_dispatch_roundtrip testRouter emptyStores ("12345") ("bananas")
        (by decide)
    exact ⟨h, σ2, h1, h2, h3⟩⟩

/-! ## Lemmas: decimal probe strings and delimiter interference (C2) -/

lemma digitChar_isDigit : ∀ m : Nat, m < 10 →
    (Nat.digitChar m).isDigit = true := by decide

lemma toDigitsCore_digits :
    ∀ (fuel n : Nat) (ds : List Char),
      (∀ c ∈ ds, c.isDigit = true) →
      ∀ c ∈ Nat.toDigitsCore 10 fuel n ds, c.isDigit = true := by
  intro fuel
  induction fuel with
  | zero => intro n ds hds c hc; exact hds c hc
  | succ fuel ih =>
    intro n ds hds c hc
    have hd : (Nat.digitChar (n % 10)).isDigit = true :=
      digitChar_isDigit _ (Nat.mod_lt _ (by norm_num))
    have hds2 : ∀ c2 ∈ Nat.digitChar (n % 10) :: ds, c2.isDigit = true := by
      intro c2 hc2
      rcases hc2 with _ | ⟨_, hc2⟩
      · exact hd
      · exact hds c2 hc2
    simp only [Nat.toDigitsCore] at hc
    by_cases h0 : n / 10 = 0
    · rw [if_pos h0] at hc
      exact hds2 c hc
    · rw [if_neg h0] at hc
      exact ih (n / 10) _ hds2 c hc

lemma toString_nat_digits (n : Nat) :
    ∀ c ∈ (toString n).data, c.isDigit = true := by
  have he : (toString n).data = Nat.toDigitsCore 10 (n + 1) n [] := rfl
  rw [he]
  exact toDigitsCore_digits (n + 1) n [] (by simp)

lemma not_mem_toString_nat (c : Char) (hc : ¬ c.isDigit = true) (n : Nat) :
    c ∉ (toString n).data :=
  fun h => hc (toString_nat_digits n c h)

lemma reSearch_none_left (a b : Char) :
    ∀ l : List Char, a ∉ l → reSearch a b l = none := by
  intro l ha
  induction l with
  | nil => rfl
  | cons c rest ih =>
    simp only [List.mem_cons, not_or] at ha
    have hc : c ≠ a := fun h => ha.1 h.symm
    simp [reSearch, hc, ih ha.2]

lemma reSearch_none_right (a b : Char) :
    ∀ l : List Char, b ∉ l → reSearch a b l = none := by
  intro l hb
  induction l with
  | nil => rfl
  | cons c rest ih =>
    simp only [List.mem_cons, not_or] at hb
    have hrest : b ∉ rest := hb.2
    by_cases hc : c = a
    · subst hc
      simp [reSearch, takeUntil_eq_none b rest hrest, ih hrest]
    · simp [reSearch, hc, ih hrest]

/-- With at least one non-digit delimiter, extraction is the identity on
decimal probe identifiers. -/
lemma extract_decimal_id (a b : Char)
    (hab : ¬ a.isDigit = true ∨ ¬ b.isDigit = true) (n : Nat) :
    _get_key_id_from_key a b (toString n) = toString n := by
  unfold _get_key_id_from_key
  rcases hab with h | h
  · rw [reSearch_none_left a b _ (not_mem_toString_nat a h n)]
  · rw [reSearch_none_right a b _ (not_mem_toString_nat b h n)]

/-- With at least one non-digit delimiter, probing by key equals probing
by identifier on decimal probe strings. -/
lemma route_key_toString (a b : Char)
    (hab : ¬ a.isDigit = true ∨ ¬ b.isDigit = true) (N n : Nat) :
    get_shard_num_by_key a b (toString n) N =
      get_shard_num_by_key_id (toString n) N := by
  unfold get_shard_num_by_key
  rw [extract_decimal_id a b hab n]

/-! ## Lemmas: association-list lookup (C2) -/

lemma lookup_isSome_iff_mem_keys (l : List (Nat × String)) (s : Nat) :
    (l.lookup s).isSome = true ↔ s ∈ l.map Prod.fst := by
  induction l with
  | nil => simp
  | cons p rest ih =>
    obtain ⟨k, v⟩ := p
    by_cases hk : s = k
    · subst hk
      simp [List.lookup]
    · simp only [List.lookup, beq_iff_eq, if_neg hk, List.map_cons,
        List.mem_cons]
      rw [show ((s == k) : Bool) = false from by simp [hk]]
      simp [ih, hk]

lemma lookup_append_some {l1 l2 : List (Nat × String)} {s : Nat}
    {v : String} (h : l1.lookup s = some v) :
    (l1 ++ l2).lookup s = some v := by
  induction l1 with
  | nil => simp [List.lookup] at h
  | cons p rest ih =>
    obtain ⟨k, w⟩ := p
    by_cases hk : s = k
    · subst hk
      simp [List.lookup] at h ⊢
      exact h
    · have hbeq : ((s == k) : Bool) = false := by simp [hk]
      simp only [List.lookup, List.cons_append, hbeq] at h ⊢
      exact ih h

lemma lookup_append_none {l1 l2 : List (Nat × String)} {s : Nat}
    (h : l1.lookup s = none) :
    (l1 ++ l2).lookup s = l2.lookup s := by
  induction l1 with
  | nil => simp
  | cons p rest ih =>
    obtain ⟨k, w⟩ := p
    by_cases hk : s = k
    · subst hk
      simp [List.lookup] at h
    · have hbeq : ((s == k) : Bool) = false := by simp [hk]
      simp only [List.lookup, List.cons_append, hbeq] at h ⊢
      exact ih h

lemma lookup_singleton (s k : Nat) (v : String) :
    (([(k, v)] : List (Nat × String)).lookup s) =
      if s = k then some v else none := by
  by_cases hk : s = k
  · subst hk; simp [List.lookup]
  · have hbeq : ((s == k) : Bool) = false := by simp [hk]
    simp [List.lookup, hbeq, hk]

/-! ## The canonical-key loop invariant (C2) -/

/-- Invariant of the probe loop about to probe `k`: every table entry is
the decimal string of the first probe that reached its shard, and every
shard without an entry was reached by no probe below `k`. -/
def CkInv (a b : Char) (N k : Nat) (acc : List (Nat × String)) : Prop :=
  1 ≤ k ∧
  (∀ s v, acc.lookup s = some v → ∃ m, 0 < m ∧ m < k ∧ v = toString m ∧
    get_shard_num_by_key a b (toString m) N = s ∧
    ∀ j, 0 < j → j < m → get_shard_num_by_key a b (toString j) N ≠ s) ∧
  (∀ s, acc.lookup s = none → ∀ j, 0 < j → j < k →
    get_shard_num_by_key a b (toString j) N ≠ s) ∧
  (acc.map Prod.fst).Nodup

lemma ckInv_insert (a b : Char) (N k : Nat) (acc : List (Nat × String))
    (h : CkInv a b N k acc)
    (hnone : acc.lookup (get_shard_num_by_key a b (toString k) N) = none) :
    CkInv a b N (k + 1)
      (acc ++ [(get_shard_num_by_key a b (toString k) N, toString k)]) := by
  obtain ⟨hk, hsome, hnone2, hnd⟩ := h
  refine ⟨by omega, ?_, ?_, ?_⟩
  · intro s v hv
    rcases hacc : acc.lookup s with _ | v2
    · rw [lookup_append_none hacc, lookup_singleton] at hv
      by_cases hss : s = get_shard_num_by_key a b (toString k) N
      · rw [if_pos hss] at hv
        have hvk : v = toString k := by injection hv with h2; exact h2.symm
        exact ⟨k, by omega, by omega, hvk, hss.symm,
          fun j hj1 hj2 => hnone2 s hacc j hj1 hj2⟩
      · rw [if_neg hss] at hv
        exact absurd hv (by simp)
    · rw [lookup_append_some hacc] at hv
      have hv2 : v2 = v := by injection hv
      subst hv2
      obtain ⟨m, h1, h2, h3, h4, h5⟩ := hsome s v2 hacc
      exact ⟨m, h1, by omega, h3, h4, h5⟩
  · intro s hs j hj1 hj2
    have hacc : acc.lookup s = none := by
      rcases hacc : acc.lookup s with _ | v2
      · rfl
      · rw [lookup_append_some hacc] at hs
        exact absurd hs (by simp)
    have hss : s ≠ get_shard_num_by_key a b (toString k) N := by
      intro he
      rw [lookup_append_none hacc, lookup_singleton, if_pos he] at hs
      exact absurd hs (by simp)
    rcases (show j < k ∨ j = k from by omega) with hj | hj
    · exact hnone2 s hacc j hj1 hj
    · subst hj
      exact fun he => hss he.symm
  · have hmem : get_shard_num_by_key a b (toString k) N ∉
        acc.map Prod.fst := by
      rw [← lookup_isSome_iff_mem_keys]
      simp [hnone]
    simp [List.nodup_append, hnd, hmem]

lemma ckLoop_inv (a b : Char) (N : Nat) :
    ∀ (fuel k : Nat) (acc : List (Nat × String)), CkInv a b N k acc →
      ∃ k2, CkInv a b N k2 (ckLoop a b N fuel k acc) := by
  intro fuel
  induction fuel with
  | zero => intro k acc h; exact ⟨k, h⟩
  | succ fuel ih =>
    intro k acc h
    simp only [ckLoop]
    by_cases hmem :
        (acc.lookup (get_shard_num_by_key a b (toString k) N)).isSome = true
    · rw [if_pos hmem]
      apply ih (k + 1)
      obtain ⟨hk, hsome, hnone, hnd⟩ := h
      refine ⟨by omega, fun s v hv => ?_, fun s hs j hj1 hj2 => ?_, hnd⟩
      · obtain ⟨m, h1, h2, h3, h4, h5⟩ := hsome s v hv
        exact ⟨m, h1, by omega, h3, h4, h5⟩
      · rcases (show j < k ∨ j = k from by omega) with hj | hj
        · exact hnone s hs j hj1 hj
        · subst hj
          intro he
          rw [he, hs] at hmem
          exact absurd hmem (by simp)
    · rw [if_neg hmem]
      have hnone0 :
          acc.lookup (get_shard_num_by_key a b (toString k) N) = none := by
        rcases hx : acc.lookup (get_shard_num_by_key a b (toString k) N)
          with _ | v2
        · rfl
        · rw [hx] at hmem
          exact absurd rfl hmem
      have hins := ckInv_insert a b N k acc h hnone0
      by_cases hlen :
          (acc ++ [(get_shard_num_by_key a b (toString k) N, toString k)]).length
            = N
      · rw [if_pos hlen]
        exact ⟨k + 1, hins⟩
      · rw [if_neg hlen]
        exact ih (k + 1) _ hins

/-! ## C3: exhausting the canonical-key search budget -/

/-- C3 on the code as written: with amplifier 0 and more than one shard
the probe range `range(1, N² · 0)` is empty, no shard is covered, and the
computation fails — but the failure is a `NameError` from the undefined
name `len_canonical_keys` read while the error message is being built, not
a configuration `ValueError` carrying the requested and found shard counts
(which the `%d` placeholders under `str.format` would not have
interpolated in any case). -/
theorem c3_amplifier_zero_fails (a b : Char) (N : Nat) (hN : 1 < N) :
    compute_canonical_keys a b N 0 =
      .error (.nameError ("len_canonical_keys")) := by
  simp only [compute_canonical_keys, Nat.mul_zero, Nat.zero_sub, ckLoop,
    List.length_nil]
  rw [if_neg (by omega)]

/-- Witness for C3 at two shards with the default hash tag. -/
theorem c3_amplifier_zero_fails_witness :
    1 < 2 ∧ compute_canonical_keys '\x7b' '\x7d' 2 0 =
      .error (.nameError ("len_canonical_keys")) :=
  ⟨by decide, c3_amplifier_zero_fails '\x7b' '\x7d' 2 (by decide)⟩

/-! ## C5: multi-get fan-out -/

/-- C5 on the code as written: `mget` builds its per-shard buckets only
for shards that received at least one key, but then iterates over every
shard number in `range(0, num_shards)` and reads `key_map[shard_num]`
unconditionally, so any shard with no assigned keys raises `KeyError`.
For the repository's own ten-shard test configuration and the five keys of
its `test_mget` test, the keys land on shards 2, 7, 2, 3 and 9, shard 0
has no bucket, and the call fails instead of returning grouped results. -/
theorem c5_mget_missing_shard_keyerror :
    ([("cat"), ("cow"), ("dog"), ("pig"), ("sheep")] : List String).map
      (fun k => get_shard_num_by_key '\x7b' '\x7d' k 10) =
        [2, 7, 2, 3, 9] ∧
    mget testRouter emptyStores
      [("cat"), ("cow"), ("dog"), ("pig"), ("sheep")] =
      .error (.keyError 0) := by
  refine ⟨by decide, rfl⟩

/-! ## C2: canonical-key table invariants -/

/-- C2 amended: whenever canonical-key computation succeeds for shard
count `N` — and at least one hash-tag delimiter is not a decimal digit, so
that identifier extraction cannot alter the decimal probe strings the loop
feeds through `get_shard_num_by_key` — the table has exactly `N` entries,
one for every shard index `s < N`; routing a table entry by identifier
yields its shard index; and each entry is the decimal string of the
smallest positive integer routing to its shard index. -/
theorem c2_canonical_table (a b : Char) (N amp : Nat)
    (hab : ¬ a.isDigit = true ∨ ¬ b.isDigit = true)
    (t : List (Nat × String))
    (h : compute_canonical_keys a b N amp = .ok t) :
    t.length = N ∧
    (∀ s : Nat, (t.lookup s).isSome = true ↔ s < N) ∧
    (∀ s v, t.lookup s = some v →
      get_shard_num_by_key_id v N = s ∧
      ∃ m : Nat, 0 < m ∧ v = toString m ∧
        ∀ j : Nat, 0 < j → j < m →
          get_shard_num_by_key_id (toString j) N ≠ s) := by
  unfold compute_canonical_keys at h
  by_cases hlen : (ckLoop a b N (N ^ 2 * amp - 1) 1 []).length = N
  case neg =>
    rw [if_neg hlen] at h
    exact absurd h (by simp)
  rw [if_pos hlen] at h
  have ht : t = ckLoop a b N (N ^ 2 * amp - 1) 1 [] := by
    injection h with h2
    exact h2.symm
  have hinit : CkInv a b N 1 [] := by
    refine ⟨le_refl 1, ?_, ?_, by simp⟩
    · intro s v hv
      simp at hv
    · intro s _ j hj1 hj2
      omega
  obtain ⟨k2, hinv⟩ := ckLoop_inv a b N (N ^ 2 * amp - 1) 1 [] hinit
  rw [← ht] at hinv hlen
  obtain ⟨hk2, hsome, hnone, hnd⟩ := hinv
  rcases Nat.eq_zero_or_pos N with hN0 | hN
  · subst hN0
    have ht0 : t = [] := List.length_eq_zero.mp hlen
    subst ht0
    exact ⟨rfl, by simp, by simp⟩
  · have hmod : ∀ m : Nat, get_shard_num_by_key a b (toString m) N < N := by
      intro m
      unfold get_shard_num_by_key get_shard_num_by_key_id
      exact Nat.mod_lt _ hN
    have hkeys_lt : ∀ x ∈ t.map Prod.fst, x < N := by
      intro x hx
      rw [← lookup_isSome_iff_mem_keys] at hx
      obtain ⟨v, hv⟩ := Option.isSome_iff_exists.mp hx
      obtain ⟨m, h1, h2, h3, h4, h5⟩ := hsome x v hv
      rw [← h4]
      exact hmod m
    have hfin : (t.map Prod.fst).toFinset = Finset.range N := by
      apply Finset.eq_of_subset_of_card_le
      · intro x hx
        rw [List.mem_toFinset] at hx
        rw [Finset.mem_range]
        exact hkeys_lt x hx
      · rw [List.toFinset_card_of_nodup hnd, Finset.card_range,
          List.length_map, hlen]
    refine ⟨hlen, ?_, ?_⟩
    · intro s
      constructor
      · intro hx
        rw [lookup_isSome_iff_mem_keys] at hx
        exact hkeys_lt s hx
      · intro hs
        rw [lookup_isSome_iff_mem_keys]
        have hsf : s ∈ (t.map Prod.fst).toFinset := by
          rw [hfin, Finset.mem_range]
          exact hs
        exact List.mem_toFinset.mp hsf
    · intro s v hv
      obtain ⟨m, h1, h2, h3, h4, h5⟩ := hsome s v hv
      subst h3
      refine ⟨?_, m, h1, rfl, ?_⟩
      · rw [← route_key_toString a b hab N m]
        exact h4
      · intro j hj1 hj2
        rw [← route_key_toString a b hab N j]
        exact h5 j hj1 hj2

/-- Witness for the amended C2: the ten-shard, amplifier-100 run with the
default `{`/`}` hash tag, whose table matches the repository's recorded
test values entry for entry. -/
theorem c2_canonical_table_witness :
    ((¬ Char.isDigit '\x7b' = true ∨ ¬ Char.isDigit '\x7d' = true) ∧
     compute_canonical_keys '\x7b' '\x7d' 10 100 =
       .ok [(0, ("1")), (2, ("4")), (1, ("7")), (3, ("8")), (5, ("10")),
            (6, ("12")), (9, ("13")), (7, ("18")), (8, ("21")),
            (4, ("26"))]) ∧
    (([(0, ("1")), (2, ("4")), (1, ("7")), (3, ("8")), (5, ("10")),
       (6, ("12")), (9, ("13")), (7, ("18")), (8, ("21")),
       (4, ("26"))] : List (Nat × String)).length = 10 ∧
     (∀ s : Nat,
       (([(0, ("1")), (2, ("4")), (1, ("7")), (3, ("8")), (5, ("10")),
          (6, ("12")), (9, ("13")), (7, ("18")), (8, ("21")),
          (4, ("26"))] : List (Nat × String)).lookup s).isSome = true ↔
         s < 10) ∧
     (∀ s v,
       ([(0, ("1")), (2, ("4")), (1, ("7")), (3, ("8")), (5, ("10")),
         (6, ("12")), (9, ("13")), (7, ("18")), (8, ("21")),
         (4, ("26"))] : List (Nat × String)).lookup s = some v →
       get_shard_num_by_key_id v 10 = s ∧
       ∃ m : Nat, 0 < m ∧ v = toString m ∧
         ∀ j : Nat, 0 < j → j < m →
           get_shard_num_by_key_id (toString j) 10 ≠ s)) := by
  have h : compute_canonical_keys '\x7b' '\x7d' 10 100 =
      .ok [(0, ("1")), (2, ("4")), (1, ("7")), (3, ("8")), (5, ("10")),
           (6, ("12")), (9, ("13")), (7, ("18")), (8, ("21")),
           (4, ("26"))] := rfl
  exact ⟨⟨Or.inl (by decide), h⟩,
    c2_canonical_table '\x7b' '\x7d' 10 100 (Or.inl (by decide)) _ h⟩

/-- C2 as stated is false without a delimiter condition: with the
hash tag `'1'`/`'0'` (a configuration the data model permits) the
computation still succeeds, but the probe `"10"` is read as a delimiter
span with empty identifier, lands on shard 8, and is recorded there — yet
routing the stored entry `"10"` by identifier yields shard 5, not 8 (and
8's true smallest identifier, 21, is never recorded). -/
theorem c2_canonical_table_counterexample :
    compute_canonical_keys '1' '0' 10 100 =
      .ok [(0, ("1")), (2, ("4")), (1, ("7")), (3, ("8")), (8, ("10")),
           (5, ("11")), (6, ("12")), (9, ("13")), (7, ("18")),
           (4, ("26"))] ∧
    ([(0, ("1")), (2, ("4")), (1, ("7")), (3, ("8")), (8, ("10")),
      (5, ("11")), (6, ("12")), (9, ("13")), (7, ("18")),
      (4, ("26"))] : List (Nat × String)).lookup 8 = some ("10") ∧
    get_shard_num_by_key_id ("10") 10 ≠ 8 ∧
    get_shard_num_by_key_id ("10") 10 = 5 := by
  refine ⟨rfl, by decide, by decide, by decide⟩

end Twemredis
